import Mathlib

/-!
Verification of the AluminumCutOptimizer core (`cutting_optimizer.py`) against its
specification. Lengths, gaps and efficiencies are embedded as rationals (the Python
code computes with floats; every computation the claims mention is arithmetic a
rational models exactly). Profile codes and item ids are embedded as `String`,
built exactly as the source builds them. Pandas DataFrames are embedded as lists
of rows; the source's final `sort_values` calls (lines 176-188) permute rows and
round the displayed efficiency columns only, and every claim below is invariant
under row permutation and does not concern the rounded display values, so they
are not modelled.
-/

namespace CutOpt

/-- A bar under construction: the ordered list of piece lengths already placed on
it (`patterns[i]` in the source) paired with its current remaining capacity
(`remaining_lengths[i]`, lines 63-64: the two parallel lists are always extended
and updated together at the same index, so a list of pairs carries the same
data). -/
abbrev Bar : Type := List ℚ × ℚ

/-- One step of the first-fit heuristic, `cutting_optimizer.py` lines 66-82:
scan the open bars in creation order; place `len` in the first bar whose
remaining capacity is at least `len` (`if length <= remaining`, line 71),
appending it to that bar's piece list (line 73) and reducing the capacity by
`len + gap` (line 75); if no bar fits, open a new bar holding `len` with
capacity `stock - len - gap` (lines 80-82). -/
def ffdInsert (gap stock len : ℚ) : List Bar → List Bar
  | [] => [([len], stock - len - gap)]
  | b :: rest =>
    if len ≤ b.2 then (b.1 ++ [len], b.2 - len - gap) :: rest
    else b :: ffdInsert gap stock len rest

/-- The first-fit loop over all demanded lengths (`for length in lengths`,
line 66), starting from no open bars (lines 63-64). -/
def ffd (gap stock : ℚ) (lengths : List ℚ) : List Bar :=
  lengths.foldl (fun bars len => ffdInsert gap stock len bars) []

/-- Descending sort of the demanded lengths, `lengths = np.sort(lengths)[::-1]`
(line 51). A descending sort of a list of rationals is unique as a list of
values, so any sorting algorithm gives the same result; we use insertion sort. -/
def sortDesc (l : List ℚ) : List ℚ :=
  l.insertionSort (fun a b => b ≤ a)

/-- The two optimization methods (line 7 and lines 90-105).
`maxEfficiency` is the string "Tối Ưu Hiệu Suất Cao Nhất"; `minBarCount` is the
`else` branch of line 98, reached for any other method string, in particular
"Tối Ưu Số Lượng Thanh". -/
inductive Method where
  | maxEfficiency
  | minBarCount

/-- The running best solution of the candidate loop (lines 53-58):
`best_patterns`/`best_remaining_lengths` (as the list of pairs `bars`),
`best_stock_length`, `best_efficiency`, and `best_bar_count`. The source
initializes `best_bar_count = float('inf')`, so the count lives in
`WithTop ℕ` with `⊤` for the initial infinity. -/
structure Best where
  bars : List Bar
  stockLen : ℚ
  eff : ℚ
  barCount : WithTop ℕ

/-- The scored candidate for one stock length `s` (lines 62-87): its first-fit
bars, the stock length, `current_efficiency = total_used_length /
total_stock_length if total_stock_length > 0 else 0` (lines 85-87), and its bar
count `len(patterns)`. -/
def mkCand (gap : ℚ) (lengths : List ℚ) (s : ℚ) : Best :=
  let bars := ffd gap s lengths
  let totUsed := (bars.map (fun b => b.1.sum)).sum
  let totStock := s * (bars.length : ℚ)
  { bars := bars
    stockLen := s
    eff := if 0 < totStock then totUsed / totStock else 0
    barCount := (bars.length : ℕ) }

/-- The comparison key of a solution: its bar count and its efficiency,
the two fields lines 92 and 100 compare. -/
def bestKey (b : Best) : WithTop ℕ × ℚ :=
  (b.barCount, b.eff)

/-- Line 100's condition, as a relation on comparison keys: the candidate key
`k₁` displaces the best key `k₂` when `len(patterns) < best_bar_count or
(len(patterns) == best_bar_count and current_efficiency > best_efficiency)`. -/
def better (k₁ k₂ : WithTop ℕ × ℚ) : Prop :=
  k₁.1 < k₂.1 ∨ (k₁.1 = k₂.1 ∧ k₂.2 < k₁.2)

instance betterDec (k₁ k₂ : WithTop ℕ × ℚ) : Decidable (better k₁ k₂) :=
  decidable_of_iff (k₁.1 < k₂.1 ∨ (k₁.1 = k₂.1 ∧ k₂.2 < k₁.2)) Iff.rfl

/-- One iteration of the candidate loop (lines 61-105): score stock length `s`
and keep it if it beats the running best under the chosen method —
`current_efficiency > best_efficiency` for `maxEfficiency` (line 92), the
`better` condition for `minBarCount` (line 100). -/
def selStep (m : Method) (gap : ℚ) (lengths : List ℚ) (b : Best) (s : ℚ) : Best :=
  match m with
  | .maxEfficiency =>
    if b.eff < (mkCand gap lengths s).eff then mkCand gap lengths s else b
  | .minBarCount =>
    if better (bestKey (mkCand gap lengths s)) (bestKey b) then mkCand gap lengths s else b

/-- The initial best solution (lines 54-58): no patterns, the default stock
length `stock_length`, efficiency `0`, bar count `float('inf')`. -/
def initBest (ds : ℚ) : Best :=
  { bars := [], stockLen := ds, eff := 0, barCount := ⊤ }

/-- The whole candidate loop for one profile (lines 54-110): fold the candidate
stock lengths in iteration order through `selStep`, starting from `initBest`. -/
def selectBest (m : Method) (gap ds : ℚ) (options : List ℚ) (lengths : List ℚ) : Best :=
  options.foldl (selStep m gap lengths) (initBest ds)

/-- One demand line of the validated input table: profile code, length,
quantity. The external validator guarantees the length is positive and the
quantity a positive integer (spec §6), so the quantity is a `ℕ` (the source's
`int(row['Quantity'])`, line 28). -/
structure DemandLine where
  code : String
  len : ℚ
  qty : ℕ

/-- One expanded demand item (lines 29-33): profile code, length, and the id
`f"{row['Profile Code']}_{i+1}"` built from the row's profile code and the
piece's index `i` within its own row. -/
structure Item where
  code : String
  len : ℚ
  id : String

/-- The Demand Expander (lines 26-35): for each input row, `int(row['Quantity'])`
items with the row's code and length and ids `<code>_1`, `<code>_2`, ... —
the index restarts at 1 for every row. -/
def expandDemand (input : List DemandLine) : List Item :=
  input.flatMap (fun row =>
    (List.range row.qty).map (fun i => ⟨row.code, row.len, row.code ++ "_" ++ toString (i + 1)⟩))

/-- `expanded_df['Profile Code'].unique()` (line 38): the profile codes in order
of first appearance. -/
def uniqueCodes (items : List Item) : List String :=
  items.foldl (fun acc it => if it.code ∈ acc then acc else acc ++ [it.code]) []

/-- One row of the Results/Assignments output table (lines 142-147). -/
structure ResultRow where
  code : String
  id : String
  len : ℚ
  bar : ℕ

/-- One row of the Patterns output table (lines 122-131). The source's
`'Cutting Pattern': '+'.join(str(p) for p in pattern)` is the rendering of the
piece list `pat`, which we keep unrendered. -/
structure PatternRow where
  code : String
  bar : ℕ
  stockLen : ℚ
  used : ℚ
  remaining : ℚ
  eff : ℚ
  pat : List ℚ
  pieces : ℕ

/-- One row of the Summary output table (lines 159-168). In the rational model a
division by zero is `0` where numpy would warn and yield `inf`/`nan` (possible
only when a profile ends with zero bars); no claim concerns those values beyond
the fact that a row is returned at all. -/
structure Summary where
  code : String
  totalPieces : ℕ
  totalBars : ℕ
  totalLengthNeeded : ℚ
  totalStockLength : ℚ
  waste : ℚ
  overallEff : ℚ
  avgBarEff : ℚ

/-- Lines 135-140: among the profile's items (in expansion order, the order of
`profile_data`), the first one whose `Length` equals the piece length and whose
`Item ID` is not among the ids of the result rows accumulated so far
(`all_results`, across all bars and profiles). -/
def firstUnassigned (items : List Item) (assigned : List ResultRow) (l : ℚ) : Option Item :=
  items.find? (fun it => it.len == l && assigned.all (fun r => r.id != it.id))

/-- Lines 133-147: for each piece length of one bar (in pattern order), bind the
first unassigned item of that length, if any, appending a result row with the
bar's number; a piece with no matching unassigned item adds no row
(`if not unassigned_items.empty`). -/
def assignPieces (code : String) (items : List Item) (bar : ℕ) (pieces : List ℚ)
    (acc : List ResultRow) : List ResultRow :=
  pieces.foldl (fun a l =>
    match firstUnassigned items a l with
    | some it => a ++ [⟨code, it.id, l, bar⟩]
    | none => a) acc

/-- The per-bar output loop (lines 112-149): walk the winning bars in creation
order with `bar_number` starting at 1, emitting for each the Patterns row
(`used_length = current_stock_length - remaining`, line 118; `efficiency =
sum(pattern) / current_stock_length`, line 120) and the Results rows of its
pieces, threading the accumulated results. -/
def mkRowsAssign (code : String) (stock : ℚ) (items : List Item) :
    ℕ → List Bar → List ResultRow → List PatternRow × List ResultRow
  | _, [], acc => ([], acc)
  | n, b :: rest, acc =>
    let acc2 := assignPieces code items n b.1 acc
    let next := mkRowsAssign code stock items (n + 1) rest acc2
    (⟨code, n, stock, stock - b.2, b.2, b.1.sum / stock, b.1, b.1.length⟩ :: next.1, next.2)

/-- One iteration of the per-profile loop (lines 43-168): filter the expanded
items to the profile, sort the lengths descending (line 51), run the candidate
loop (lines 54-110), emit pattern and result rows (lines 112-151), and build
the summary row (lines 153-168); `acc` is the `all_results` accumulator the
assignment check reads. -/
def processProfile (m : Method) (gap ds : ℚ) (options : List ℚ) (expanded : List Item)
    (acc : List ResultRow) (code : String) :
    List PatternRow × Summary × List ResultRow :=
  let profItems := expanded.filter (fun it => it.code == code)
  let lengths := sortDesc (profItems.map (fun it => it.len))
  let best := selectBest m gap ds options lengths
  let ra := mkRowsAssign code best.stockLen profItems 1 best.bars acc
  let used := (ra.1.map (fun r => r.stockLen)).sum
  let summary : Summary :=
    { code := code
      totalPieces := lengths.length
      totalBars := best.bars.length
      totalLengthNeeded := lengths.sum
      totalStockLength := used
      waste := used - lengths.sum - ((lengths.length : ℚ) - (best.bars.length : ℚ)) * gap
      overallEff := lengths.sum / used
      avgBarEff := (ra.1.map (fun r => r.eff)).sum / (ra.1.length : ℚ) }
  (ra.1, summary, ra.2)

/-- `optimize_cutting` (lines 7-190) with an explicit candidate list: expand the
demand, then process each profile code in order of first appearance,
concatenating the three output tables (the source's `stock_length_options=None`
default, line 23-24, is the call with `options = [stockLength]`). Returns
`(result rows, pattern rows, summary rows)` as line 190 does. -/
def optimize_cutting (m : Method) (stockLength gap : ℚ) (options : List ℚ)
    (input : List DemandLine) :
    List ResultRow × List PatternRow × List Summary :=
  let expanded := expandDemand input
  let out := (uniqueCodes expanded).foldl
    (fun (st : List PatternRow × List Summary × List ResultRow) code =>
      let r := processProfile m gap stockLength options expanded st.2.2 code
      (st.1 ++ r.1, st.2.1 ++ [r.2.1], r.2.2))
    ([], [], [])
  (out.2.2, out.1, out.2.1)

/-! ### Lemmas about the first-fit pattern generator -/

lemma ffdInsert_ne_nil (gap stock len : ℚ) (bars : List Bar) :
    ffdInsert gap stock len bars ≠ [] := by
  cases bars with
  | nil => simp [ffdInsert]
  | cons b rest =>
    simp only [ffdInsert]
    split <;> simp

lemma ffd_fold_ne_nil (gap stock : ℚ) :
    ∀ (ls : List ℚ) (bars : List Bar), bars ≠ [] →
      ls.foldl (fun bs l => ffdInsert gap stock l bs) bars ≠ [] := by
  intro ls
  induction ls with
  | nil => intro bars h; simpa using h
  | cons l t ih =>
    intro bars _
    simp only [List.foldl_cons]
    exact ih _ (ffdInsert_ne_nil _ _ _ _)

lemma ffd_ne_nil (gap stock : ℚ) (ls : List ℚ) (h : ls ≠ []) :
    ffd gap stock ls ≠ [] := by
  cases ls with
  | nil => exact absurd rfl h
  | cons l t =>
    simpa [ffd] using ffd_fold_ne_nil gap stock t (ffdInsert gap stock l [])
      (ffdInsert_ne_nil _ _ _ _)

/-- Inserting a length adds exactly that length to the pieces placed on the bars. -/
lemma ffdInsert_flatten_perm (gap stock len : ℚ) (bars : List Bar) :
    List.Perm ((ffdInsert gap stock len bars).map Prod.fst).flatten
      ((bars.map Prod.fst).flatten ++ [len]) := by
  induction bars with
  | nil => simp [ffdInsert]
  | cons b rest ih =>
    simp only [ffdInsert]
    split
    · simp only [List.map_cons, List.flatten_cons, List.append_assoc]
      exact List.Perm.append_left b.1 (List.perm_append_comm)
    · simp only [List.map_cons, List.flatten_cons, List.append_assoc]
      exact List.Perm.append_left b.1 ih

lemma ffd_fold_flatten_perm (gap stock : ℚ) :
    ∀ (ls : List ℚ) (bars : List Bar),
      List.Perm ((ls.foldl (fun bs l => ffdInsert gap stock l bs) bars).map Prod.fst).flatten
        ((bars.map Prod.fst).flatten ++ ls) := by
  intro ls
  induction ls with
  | nil => intro bars; simp
  | cons l t ih =>
    intro bars
    simp only [List.foldl_cons]
    refine List.Perm.trans (ih (ffdInsert gap stock l bars)) ?_
    refine List.Perm.trans (List.Perm.append_right t (ffdInsert_flatten_perm gap stock l bars)) ?_
    simp [List.append_assoc]

/-- The pieces placed by a full first-fit run are a permutation of the demanded lengths. -/
lemma ffd_flatten_perm (gap stock : ℚ) (ls : List ℚ) :
    List.Perm ((ffd gap stock ls).map Prod.fst).flatten ls := by
  simpa [ffd] using ffd_fold_flatten_perm gap stock ls []

/-! ### Claim C3: first-fit placement -/

/-- Claim C3 (confirmed): the demanded lengths of a profile are processed in
descending order (first conjunct: `sortDesc` yields a `≥`-sorted list), and for
each length the generator scans the open bars in creation order, placing it
into the first bar whose remaining capacity is at least the length while
reducing that capacity by `length + cuttingGap` (third conjunct), and opening a
new bar with capacity `stockLength - length - cuttingGap` when no open bar fits
(second conjunct). -/
theorem claim3 (gap stock len : ℚ) (bars : List Bar) (ls : List ℚ) :
    List.Sorted (fun a b : ℚ => b ≤ a) (sortDesc ls) ∧
    ((∀ b ∈ bars, b.2 < len) →
      ffdInsert gap stock len bars = bars ++ [([len], stock - len - gap)]) ∧
    (∀ i (hi : i < bars.length),
      (∀ k (hk : k < i), (bars.get ⟨k, Nat.lt_trans hk hi⟩).2 < len) →
      len ≤ (bars.get ⟨i, hi⟩).2 →
      ffdInsert gap stock len bars =
        bars.set i ((bars.get ⟨i, hi⟩).1 ++ [len], (bars.get ⟨i, hi⟩).2 - len - gap)) := by
  refine ⟨List.sorted_insertionSort _ _, ?_, ?_⟩
  · intro h
    induction bars with
    | nil => simp [ffdInsert]
    | cons b rest ih =>
      have hb : b.2 < len := h b (by simp)
      simp only [ffdInsert, if_neg (not_le.mpr hb)]
      rw [ih (fun x hx => h x (List.mem_cons_of_mem _ hx))]
      simp
  · intro i
    induction bars generalizing i with
    | nil => intro hi; exact absurd hi (by simp)
    | cons b rest ih =>
      intro hi hk hlen
      cases i with
      | zero =>
        simp only [List.get] at hlen
        simp [ffdInsert, if_pos hlen, List.set]
      | succ j =>
        have hb : b.2 < len := by simpa using hk 0 (Nat.succ_pos j)
        simp only [ffdInsert, if_neg (not_le.mpr hb)]
        rw [ih j (Nat.lt_of_succ_lt_succ hi)
          (fun k hkj => by simpa using hk (k + 1) (Nat.succ_lt_succ hkj))
          (by simpa using hlen)]
        simp [List.set]

/-! ### Claim C5: remaining capacity bound -/

/-- Claim C5 (counterexample): the length 995 fits the stock 1000, so no
`InfeasibleItemError` applies in the claim's sense, yet the produced bar has
remaining capacity `1000 - 995 - 10 = -5 < 0`. -/
theorem claim5_cex :
    (995 : ℚ) ≤ 1000 ∧ ¬ (∀ b ∈ ffd 10 1000 [(995 : ℚ)], (0 : ℚ) ≤ b.2) := by
  have e : ffd 10 1000 [(995 : ℚ)] = [([995], -5)] := by norm_num [ffd, ffdInsert]
  refine ⟨by norm_num, fun h => ?_⟩
  have := h ([995], -5) (by rw [e]; simp)
  norm_num at this

lemma ffdInsert_remaining (gap stock len : ℚ) (bars : List Bar)
    (hlen : len ≤ stock) (h : ∀ b ∈ bars, -gap ≤ b.2) :
    ∀ b ∈ ffdInsert gap stock len bars, -gap ≤ b.2 := by
  induction bars with
  | nil =>
    intro b hb
    simp only [ffdInsert, List.mem_singleton] at hb
    subst hb
    simp only
    linarith
  | cons c rest ih =>
    simp only [ffdInsert]
    split
    · intro b hb
      rcases List.mem_cons.mp hb with rfl | hb
      · simp only
        linarith
      · exact h b (List.mem_cons_of_mem _ hb)
    · intro b hb
      rcases List.mem_cons.mp hb with rfl | hb
      · exact h b (by simp)
      · exact ih (fun x hx => h x (List.mem_cons_of_mem _ hx)) b hb

lemma ffd_fold_remaining (gap stock : ℚ) :
    ∀ (ls : List ℚ) (bars : List Bar), (∀ l ∈ ls, l ≤ stock) →
      (∀ b ∈ bars, -gap ≤ b.2) →
      ∀ b ∈ ls.foldl (fun bs l => ffdInsert gap stock l bs) bars, -gap ≤ b.2 := by
  intro ls
  induction ls with
  | nil => intro bars _ h; simpa using h
  | cons l t ih =>
    intro bars hl h
    simp only [List.foldl_cons]
    exact ih _ (fun x hx => hl x (List.mem_cons_of_mem _ hx))
      (ffdInsert_remaining gap stock l bars (hl l (by simp)) h)

/-- Claim C5 (amended): when every demanded length is at most the stock length,
every bar's remaining capacity stays at least `-cuttingGap` (it can dip below
zero by up to one cutting gap, as the counterexample shows, but no further). -/
theorem claim5_amended (gap stock : ℚ) (ls : List ℚ) (h : ∀ l ∈ ls, l ≤ stock) :
    ∀ b ∈ ffd gap stock ls, -gap ≤ b.2 :=
  ffd_fold_remaining gap stock ls [] h (by simp)

/-- Claim C5 witness: the amended bound applied to a concrete feasible run. -/
theorem claim5_witness : (-10 : ℚ) ≤ ((ffd 10 1000 [600, 300]).headI).2 := by
  have e : ffd 10 1000 [(600 : ℚ), 300] = [([600, 300], 80)] := by norm_num [ffd, ffdInsert]
  refine claim5_amended 10 1000 [600, 300] (by norm_num) _ ?_
  rw [e]
  simp

/-! ### Claim C2: item ids -/

/-- Claim C2 (code bug): on two demand lines sharing the profile code "A" the
expander emits the id "A_1" twice — the sequence number restarts at 1 for every
line (line 28's `for i in range(...)`), so ids are not pairwise distinct within
a profile code that occurs on more than one line. -/
theorem claim2_code_bug :
    (expandDemand [⟨"A", 200, 1⟩, ⟨"A", 100, 1⟩]).map (fun it => it.id) = ["A_1", "A_1"] ∧
    ¬ ((expandDemand [⟨"A", 200, 1⟩, ⟨"A", 100, 1⟩]).map (fun it => it.id)).Nodup := by
  decide

/-! ### Claim C6: oversized length -/

/-- Claim C6 (code bug): with the single demanded length 7000 exceeding the only
candidate stock length 6000, `optimize_cutting` raises nothing and returns a
Patterns table whose one bar has remaining capacity `6000 - 7000 - 10 = -1010 < 0`. -/
theorem claim6_code_bug :
    (optimize_cutting .maxEfficiency 6000 10 [6000] [⟨"A", 7000, 1⟩]).2.1.map
      (fun r => r.remaining) = [-1010] ∧ (-1010 : ℚ) < 0 := by
  constructor
  · norm_num [optimize_cutting, expandDemand, uniqueCodes, processProfile, sortDesc,
      List.insertionSort, List.orderedInsert, selectBest, selStep, mkCand, ffd, ffdInsert,
      better, bestKey, initBest, mkRowsAssign, assignPieces, firstUnassigned, List.range_succ]
  · norm_num

/-! ### Lemmas about the candidate selection loop -/

lemma better_irrefl (k : WithTop ℕ × ℚ) : ¬ better k k := by
  simp [better]

lemma better_trans {k₁ k₂ k₃ : WithTop ℕ × ℚ} (h₁ : better k₁ k₂) (h₂ : better k₂ k₃) :
    better k₁ k₃ := by
  rcases h₁ with h | ⟨e, h⟩ <;> rcases h₂ with g | ⟨f, g⟩
  · exact Or.inl (lt_trans h g)
  · exact Or.inl (f ▸ h)
  · exact Or.inl (e ▸ g)
  · exact Or.inr ⟨e.trans f, lt_trans g h⟩

lemma better_asymm {k₁ k₂ : WithTop ℕ × ℚ} (h : better k₁ k₂) : ¬ better k₂ k₁ :=
  fun h2 => better_irrefl k₁ (better_trans h h2)

lemma better_tri (k₁ k₂ : WithTop ℕ × ℚ) : better k₁ k₂ ∨ k₁ = k₂ ∨ better k₂ k₁ := by
  rcases lt_trichotomy k₁.1 k₂.1 with h | h | h
  · exact Or.inl (Or.inl h)
  · rcases lt_trichotomy k₁.2 k₂.2 with g | g | g
    · exact Or.inr (Or.inr (Or.inr ⟨h.symm, g⟩))
    · exact Or.inr (Or.inl (Prod.ext h g))
    · exact Or.inl (Or.inr ⟨h, g⟩)
  · exact Or.inr (Or.inr (Or.inl h))

lemma selStep_cases (m : Method) (gap : ℚ) (ls : List ℚ) (b : Best) (s : ℚ) :
    selStep m gap ls b s = b ∨ selStep m gap ls b s = mkCand gap ls s := by
  cases m <;> simp only [selStep] <;> split <;> simp

lemma selFold_cases (m : Method) (gap : ℚ) (ls : List ℚ) :
    ∀ (options : List ℚ) (b : Best),
      options.foldl (selStep m gap ls) b = b ∨
      ∃ s ∈ options, options.foldl (selStep m gap ls) b = mkCand gap ls s := by
  intro options
  induction options with
  | nil => intro b; left; rfl
  | cons a t ih =>
    intro b
    simp only [List.foldl_cons]
    rcases selStep_cases m gap ls b a with h | h <;> rw [h]
    · rcases ih b with h2 | ⟨s, hs, h2⟩
      · exact Or.inl h2
      · exact Or.inr ⟨s, List.mem_cons_of_mem _ hs, h2⟩
    · rcases ih (mkCand gap ls a) with h2 | ⟨s, hs, h2⟩
      · exact Or.inr ⟨a, by simp, h2⟩
      · exact Or.inr ⟨s, List.mem_cons_of_mem _ hs, h2⟩

lemma mkCand_eff_pos (gap : ℚ) (ls : List ℚ) (s : ℚ) (hs : 0 < s)
    (hl : ∀ l ∈ ls, 0 < l) (hne : ls ≠ []) : 0 < (mkCand gap ls s).eff := by
  have hbars : ffd gap s ls ≠ [] := ffd_ne_nil _ _ _ hne
  have hcnt : 0 < ((ffd gap s ls).length : ℚ) := by
    have := List.length_pos.mpr hbars
    exact_mod_cast this
  have htot : 0 < s * ((ffd gap s ls).length : ℚ) := mul_pos hs hcnt
  have hused : ((ffd gap s ls).map (fun b => b.1.sum)).sum = ls.sum := by
    have hperm := ffd_flatten_perm gap s ls
    calc ((ffd gap s ls).map (fun b => b.1.sum)).sum
        = (((ffd gap s ls).map Prod.fst).map List.sum).sum := by rw [List.map_map]; rfl
      _ = ((ffd gap s ls).map Prod.fst).flatten.sum := (List.sum_flatten).symm
      _ = ls.sum := hperm.sum_eq
  have hsum : 0 < ls.sum := List.sum_pos ls hl hne
  simp only [mkCand]
  rw [if_pos htot, hused]
  exact div_pos hsum htot

/-! ### Claim C4: piece conservation -/

/-- Claim C4 (confirmed): for positive demanded lengths and a nonempty list of
positive candidate stock lengths, the multiset of piece lengths over all bars of
the winning solution (either method) equals the multiset of demanded lengths. -/
theorem claim4 (m : Method) (gap ds : ℚ) (options ls : List ℚ)
    (hne : options ≠ []) (hl : ∀ l ∈ ls, 0 < l) (hs : ∀ s ∈ options, 0 < s) :
    ((((selectBest m gap ds options (sortDesc ls)).bars.map Prod.fst).flatten : List ℚ) :
        Multiset ℚ) = (ls : Multiset ℚ) := by
  have hperm0 : List.Perm (sortDesc ls) ls := List.perm_insertionSort _ ls
  rcases List.exists_cons_of_ne_nil hne with ⟨a, t, rfl⟩
  by_cases hls : ls = []
  · subst hls
    have hnilsort : sortDesc ([] : List ℚ) = [] := List.length_eq_zero.mp hperm0.length_eq
    rcases selFold_cases m gap (sortDesc []) (a :: t) (initBest ds) with h | ⟨s, _, h⟩ <;>
      simp only [selectBest] <;> rw [h]
    · simp [initBest]
    · simp [mkCand, hnilsort, ffd]
  · have hsne : sortDesc ls ≠ [] := by
      intro e
      apply hls
      have hlen := hperm0.length_eq
      rw [e] at hlen
      exact List.length_eq_zero.mp hlen.symm
    have hsl : ∀ l ∈ sortDesc ls, 0 < l := fun l hl2 => hl l (hperm0.mem_iff.mp hl2)
    have hstep : selStep m gap (sortDesc ls) (initBest ds) a = mkCand gap (sortDesc ls) a := by
      cases m with
      | maxEfficiency =>
        have : (initBest ds).eff < (mkCand gap (sortDesc ls) a).eff :=
          mkCand_eff_pos gap (sortDesc ls) a (hs a (by simp)) hsl hsne
        simp only [selStep]
        rw [if_pos this]
      | minBarCount =>
        have : better (bestKey (mkCand gap (sortDesc ls) a)) (bestKey (initBest ds)) :=
          Or.inl (WithTop.coe_lt_top _)
        simp only [selStep]
        rw [if_pos this]
    have hwin : ∃ s ∈ a :: t, selectBest m gap ds (a :: t) (sortDesc ls) =
        mkCand gap (sortDesc ls) s := by
      simp only [selectBest, List.foldl_cons, hstep]
      rcases selFold_cases m gap (sortDesc ls) t (mkCand gap (sortDesc ls) a) with h | ⟨s, hsmem, h⟩
      · exact ⟨a, by simp, h⟩
      · exact ⟨s, List.mem_cons_of_mem _ hsmem, h⟩
    rcases hwin with ⟨s, _, hw⟩
    rw [hw]
    have : List.Perm (((mkCand gap (sortDesc ls) s).bars.map Prod.fst).flatten) ls := by
      simp only [mkCand]
      exact (ffd_flatten_perm gap s (sortDesc ls)).trans hperm0
    exact Multiset.coe_eq_coe.mpr this

/-- Claim C4 witness: the conservation theorem applied to one demand line of
length 1200 with the single stock length 6000. -/
theorem claim4_witness :
    ((((selectBest .maxEfficiency 10 6000 [6000] (sortDesc [1200])).bars.map Prod.fst).flatten :
        List ℚ) : Multiset ℚ) = (([1200] : List ℚ) : Multiset ℚ) :=
  claim4 .maxEfficiency 10 6000 [6000] [1200] (by simp) (by norm_num) (by norm_num)

/-! ### Claim C8: the MinBarCount selection rule -/

/-- The `minBarCount` branch of the candidate loop computes the first-scanned
lexicographic optimum: it returns the candidate of some index `j` that no
candidate beats under `better` (fewer bars, or equally many with strictly
greater efficiency) and that itself beats every earlier-scanned candidate. -/
lemma minFold_spec (gap : ℚ) (ls : List ℚ) :
    ∀ (t : List ℚ) (b : Best),
      (List.foldl (selStep .minBarCount gap ls) b t = b ∧
        ∀ i (hi : i < t.length),
          ¬ better (bestKey (mkCand gap ls (t.get ⟨i, hi⟩))) (bestKey b)) ∨
      (∃ j, ∃ hj : j < t.length,
        List.foldl (selStep .minBarCount gap ls) b t = mkCand gap ls (t.get ⟨j, hj⟩) ∧
        better (bestKey (mkCand gap ls (t.get ⟨j, hj⟩))) (bestKey b) ∧
        (∀ i (hi : i < t.length),
          ¬ better (bestKey (mkCand gap ls (t.get ⟨i, hi⟩)))
            (bestKey (mkCand gap ls (t.get ⟨j, hj⟩)))) ∧
        (∀ i (hij : i < j),
          better (bestKey (mkCand gap ls (t.get ⟨j, hj⟩)))
            (bestKey (mkCand gap ls (t.get ⟨i, Nat.lt_trans hij hj⟩))))) := by
  intro t
  induction t with
  | nil => intro b; left; exact ⟨rfl, fun i hi => absurd hi (by simp)⟩
  | cons a t' ih =>
    intro b
    have hstep : selStep .minBarCount gap ls b a =
        if better (bestKey (mkCand gap ls a)) (bestKey b) then mkCand gap ls a else b := rfl
    by_cases hc : better (bestKey (mkCand gap ls a)) (bestKey b)
    · rw [List.foldl_cons, hstep, if_pos hc]
      rcases ih (mkCand gap ls a) with ⟨heq, hall⟩ | ⟨j', hj', heq, hbet, hall, hfirst⟩
      · right
        refine ⟨0, Nat.succ_pos _, heq, hc, ?_, fun i hij => absurd hij (Nat.not_lt_zero i)⟩
        intro i hi
        cases i with
        | zero => exact better_irrefl _
        | succ i => exact hall i (Nat.lt_of_succ_lt_succ hi)
      · right
        refine ⟨j' + 1, Nat.succ_lt_succ hj', heq, better_trans hbet hc, ?_, ?_⟩
        · intro i hi
          cases i with
          | zero => exact better_asymm hbet
          | succ i => exact hall i (Nat.lt_of_succ_lt_succ hi)
        · intro i hij
          cases i with
          | zero => exact hbet
          | succ i => exact hfirst i (Nat.lt_of_succ_lt_succ hij)
    · rw [List.foldl_cons, hstep, if_neg hc]
      rcases ih b with ⟨heq, hall⟩ | ⟨j', hj', heq, hbet, hall, hfirst⟩
      · left
        refine ⟨heq, ?_⟩
        intro i hi
        cases i with
        | zero => exact hc
        | succ i => exact hall i (Nat.lt_of_succ_lt_succ hi)
      · right
        have hnot : ¬ better (bestKey (mkCand gap ls a))
            (bestKey (mkCand gap ls (t'.get ⟨j', hj'⟩))) :=
          fun hx => hc (better_trans hx hbet)
        refine ⟨j' + 1, Nat.succ_lt_succ hj', heq, hbet, ?_, ?_⟩
        · intro i hi
          cases i with
          | zero => exact hnot
          | succ i => exact hall i (Nat.lt_of_succ_lt_succ hi)
        · intro i hij
          cases i with
          | zero =>
            rcases better_tri (bestKey (mkCand gap ls (t'.get ⟨j', hj'⟩)))
                (bestKey (mkCand gap ls a)) with h | h | h
            · exact h
            · exact absurd (h ▸ hbet) hc
            · exact absurd h hnot
          | succ i => exact hfirst i (Nat.lt_of_succ_lt_succ hij)

/-- Claim C8 (confirmed): under `minBarCount` the winner over a nonempty
candidate list is a scanned candidate that no candidate strictly beats — no
other has fewer bars, nor equally many bars with greater efficiency — and that
strictly beats every candidate scanned before it, so on full ties the first
candidate in iteration order wins. -/
theorem claim8 (gap ds : ℚ) (ls options : List ℚ) (hne : options ≠ []) :
    ∃ j, ∃ hj : j < options.length,
      selectBest .minBarCount gap ds options ls = mkCand gap ls (options.get ⟨j, hj⟩) ∧
      (∀ i (hi : i < options.length),
        ¬ better (bestKey (mkCand gap ls (options.get ⟨i, hi⟩)))
          (bestKey (mkCand gap ls (options.get ⟨j, hj⟩)))) ∧
      (∀ i (hij : i < j),
        better (bestKey (mkCand gap ls (options.get ⟨j, hj⟩)))
          (bestKey (mkCand gap ls (options.get ⟨i, Nat.lt_trans hij hj⟩)))) := by
  rcases minFold_spec gap ls options (initBest ds) with ⟨_, hall⟩ | ⟨j, hj, heq, _, hall, hfirst⟩
  · rcases List.exists_cons_of_ne_nil hne with ⟨a, t, rfl⟩
    have h0 : better (bestKey (mkCand gap ls ((a :: t).get ⟨0, Nat.succ_pos _⟩)))
        (bestKey (initBest ds)) := Or.inl (WithTop.coe_lt_top _)
    exact absurd h0 (hall 0 (Nat.succ_pos _))
  · exact ⟨j, hj, heq, hall, hfirst⟩

/-- Claim C8 witness: with candidates `[3000, 6000]` and demand `[2000, 2000]`,
the rule is exercised at a concrete input (the 6000 candidate needs one bar, the
3000 candidate two). -/
theorem claim8_witness :
    ∃ j, ∃ hj : j < ([(3000 : ℚ), 6000] : List ℚ).length,
      selectBest .minBarCount 10 6000 [(3000 : ℚ), 6000] [2000, 2000] =
        mkCand 10 [2000, 2000] (([(3000 : ℚ), 6000] : List ℚ).get ⟨j, hj⟩) ∧
      (∀ i (hi : i < ([(3000 : ℚ), 6000] : List ℚ).length),
        ¬ better (bestKey (mkCand 10 [2000, 2000] (([(3000 : ℚ), 6000] : List ℚ).get ⟨i, hi⟩)))
          (bestKey (mkCand 10 [2000, 2000] (([(3000 : ℚ), 6000] : List ℚ).get ⟨j, hj⟩)))) ∧
      (∀ i (hij : i < j),
        better (bestKey (mkCand 10 [2000, 2000] (([(3000 : ℚ), 6000] : List ℚ).get ⟨j, hj⟩)))
          (bestKey (mkCand 10 [2000, 2000]
            (([(3000 : ℚ), 6000] : List ℚ).get ⟨i, Nat.lt_trans hij hj⟩)))) :=
  claim8 10 6000 [2000, 2000] [(3000 : ℚ), 6000] (by simp)

/-! ### Claim C9: the waste formula -/

lemma mkRowsAssign_stockLen (code : String) (stock : ℚ) (items : List Item) :
    ∀ (n : ℕ) (bars : List Bar) (acc : List ResultRow),
      ((mkRowsAssign code stock items n bars acc).1).map (fun r => r.stockLen) =
        bars.map (fun _ => stock) := by
  intro n bars
  induction bars generalizing n with
  | nil => intro acc; rfl
  | cons b rest ih =>
    intro acc
    simp only [mkRowsAssign, List.map_cons]
    rw [ih]

/-- Claim C9 (confirmed): the Summary row of a profile satisfies
`waste = totalStockLength - totalLengthNeeded - cuttingGap × (totalPieces -
totalBarsUsed)`, where `totalStockLength` is the sum of the stock lengths over
the winning bars, `totalLengthNeeded` the sum of the profile's demanded
(expanded) lengths, `totalPieces` the profile's DemandItem count and
`totalBarsUsed` the winning bar count. -/
theorem claim9 (m : Method) (gap ds : ℚ) (options : List ℚ) (expanded : List Item)
    (acc : List ResultRow) (code : String) :
    (processProfile m gap ds options expanded acc code).2.1.waste =
      (((selectBest m gap ds options
            (sortDesc ((expanded.filter (fun it => it.code == code)).map
              (fun it => it.len)))).bars.map
          (fun _ => (selectBest m gap ds options
            (sortDesc ((expanded.filter (fun it => it.code == code)).map
              (fun it => it.len)))).stockLen)).sum) -
        ((expanded.filter (fun it => it.code == code)).map (fun it => it.len)).sum -
        gap * (((expanded.filter (fun it => it.code == code)).length : ℚ) -
          ((selectBest m gap ds options
            (sortDesc ((expanded.filter (fun it => it.code == code)).map
              (fun it => it.len)))).bars.length : ℚ)) := by
  simp only [processProfile]
  rw [mkRowsAssign_stockLen]
  have hperm : List.Perm
      (sortDesc ((expanded.filter (fun it => it.code == code)).map (fun it => it.len)))
      ((expanded.filter (fun it => it.code == code)).map (fun it => it.len)) :=
    List.perm_insertionSort _ _
  rw [hperm.sum_eq, hperm.length_eq, List.length_map]
  ring

/-! ### Claim C1: one assignment per item -/

/-- Claim C1 (code bug): on the validated two-line table
`[("A", 200, 1), ("A", 100, 1)]` the expansion has 2 items (= the sum of the
quantities), but the Results table of `optimize_cutting` has only 1 row: the
duplicated item id "A_1" makes the second lookup of line 136-137 find no
unassigned item, so the piece adds no assignment row. -/
theorem claim1_code_bug :
    (optimize_cutting .maxEfficiency 1000 10 [1000] [⟨"A", 200, 1⟩, ⟨"A", 100, 1⟩]).1.length
        = 1 ∧
    (expandDemand [⟨"A", 200, 1⟩, ⟨"A", 100, 1⟩]).length = 2 ∧
    (([⟨"A", 200, 1⟩, ⟨"A", 100, 1⟩] : List DemandLine).map (fun r => r.qty)).sum = 2 := by
  refine ⟨?_, by decide, by decide⟩
  norm_num [optimize_cutting, expandDemand, uniqueCodes, processProfile, sortDesc,
    List.insertionSort, List.orderedInsert, selectBest, selStep, mkCand, ffd, ffdInsert,
    better, bestKey, initBest, mkRowsAssign, assignPieces, firstUnassigned, List.range_succ]

/-! ### Claim C7: empty candidate set -/

/-- Claim C7 (code bug): called with an empty `stock_length_options` list,
`optimize_cutting` raises nothing: the candidate loop never runs, and the call
returns an empty Patterns table together with a Summary row reporting 0 bars
for the profile (in Python the divisions of lines 157 and 166 emit numpy
warnings and yield nan/inf, still returning normally). -/
theorem claim7_code_bug :
    (optimize_cutting .maxEfficiency 6000 10 [] [⟨"A", 100, 1⟩]).2.1.length = 0 ∧
    (optimize_cutting .maxEfficiency 6000 10 [] [⟨"A", 100, 1⟩]).2.2.map
      (fun s => s.totalBars) = [0] := by
  constructor <;>
    norm_num [optimize_cutting, expandDemand, uniqueCodes, processProfile, sortDesc,
      List.insertionSort, List.orderedInsert, selectBest, selStep, mkCand, ffd, ffdInsert,
      better, bestKey, initBest, mkRowsAssign, assignPieces, firstUnassigned, List.range_succ]

/-! ### Claim C10: bar numbering -/

/-- Claim C10 (code bug): on the table `[("A", 5000, 1), ("A", 5000, 1)]` the
winning solution has two bars and the Patterns table numbers them 1, 2, but the
Results table only ever mentions bar 1: the duplicate item id "A_1" leaves the
second bar's piece unassigned, so the bar numbers appearing in Results are not
the full range 1..barCount. -/
theorem claim10_code_bug :
    ((optimize_cutting .maxEfficiency 6000 10 [6000] [⟨"A", 5000, 1⟩, ⟨"A", 5000, 1⟩]).2.1.map
      (fun r => r.bar) = [1, 2]) ∧
    ((optimize_cutting .maxEfficiency 6000 10 [6000] [⟨"A", 5000, 1⟩, ⟨"A", 5000, 1⟩]).1.map
      (fun r => r.bar) = [1]) := by
  constructor <;>
    norm_num [optimize_cutting, expandDemand, uniqueCodes, processProfile, sortDesc,
      List.insertionSort, List.orderedInsert, selectBest, selStep, mkCand, ffd, ffdInsert,
      better, bestKey, initBest, mkRowsAssign, assignPieces, firstUnassigned, List.range_succ]

end CutOpt
